import Mathlib

/-!
Verification of the omni-buffer search/replace core against its
natural-language specification.  The definitions below are a shallow
embedding of the TypeScript sources: `ResultFormatter` and
`SearchService` (src/unnamed/part_003 and the fallback scanner in
src/unnamed/part_002), `ChangeTracker` (src/src/models/excerpt.ts),
`validateMultiBufferMapping` (src/multi-buffer-search/src/models/types.ts)
and `IncrementalSearchService`
(src/multi-buffer-search/src/services/incrementalSearchService.ts).

Modelling conventions:
* JavaScript strings are modelled as Lean `String`s (sequences of `Char`);
  the string helpers below are implemented over `String.data` so that
  every definition is executable and kernel-reducible.
* JavaScript `Map` (insertion-ordered, value equality on string/number
  keys) is modelled by the association list `JMap` below whose `set`
  updates an existing key in place and otherwise appends.
* `vscode.TextDocument` is modelled by its interface: a line count and a
  line lookup function, which is all the embedded code ever uses.
* `vscode.Uri` for a file is modelled by its filesystem path; its
  `toString()` form is `"file://" ++ path` and `fsPath` is the path,
  matching the two representations the source mixes.
-/

namespace OmniBuffer

/-- `Number.MAX_SAFE_INTEGER`, used by `SearchService.expandRange` as an
end-of-line column sentinel. -/
def maxSafeInteger : Nat := 9007199254740991

/-- A line/character position (`vscode.Position`). -/
structure Pos where
  line : Nat
  character : Nat
deriving DecidableEq, Repr

/-- A `vscode.Range`; the source's `end` field is called `stop` because
`end` is a Lean keyword. -/
structure Range where
  start : Pos
  stop : Pos
deriving DecidableEq, Repr

/-- A file `vscode.Uri`, identified by its filesystem path. -/
structure Uri where
  path : String
deriving DecidableEq, Repr

/-- `vscode.Uri#toString()` for a file URI: scheme plus path. -/
def Uri.toString (u : Uri) : String := "file://" ++ u.path

/-- `vscode.Uri#fsPath`: the bare filesystem path. -/
def Uri.fsPath (u : Uri) : String := u.path

/-- `vscode.Uri.parse`, inverse of `Uri.toString` on file URIs. -/
def Uri.parse (s : String) : Uri :=
  if "file://".data.isPrefixOf s.data then ⟨⟨s.data.drop 7⟩⟩ else ⟨s⟩

/-- A `vscode.TextDocument`, modelled by the only two members the
embedded code uses: `lineCount` and `lineAt(n).text`. -/
structure TextDocument where
  lineCount : Nat
  lineAt : Nat → String

/- ### String helpers (all via `String.data`, so they reduce in the kernel) -/

/-- Character-count length of a string. -/
def strLen (s : String) : Nat := s.data.length

/-- `String.prototype.substring(n)` — drop the first `n` characters. -/
def strDrop (s : String) (n : Nat) : String := ⟨s.data.drop n⟩

/-- Whitespace test used by the model of `String.prototype.trim`. -/
def isWS (c : Char) : Bool := c.isWhitespace

/-- `String.prototype.trim`: strip whitespace from both ends. -/
def strTrim (s : String) : String :=
  ⟨((s.data.dropWhile isWS).reverse.dropWhile isWS).reverse⟩

/-- `String.prototype.padStart(w, ' ')`. -/
def padStart (s : String) (w : Nat) : String :=
  ⟨List.replicate (w - s.data.length) ' ' ++ s.data⟩

/-- Digit character for `d < 10`. -/
def digitChar (d : Nat) : Char := Char.ofNat (48 + d)

/-- Decimal digits of `n`, fuelled so that the definition is structural
(first argument is the fuel; `n + 1` is always enough). -/
def natDigitsAux : Nat → Nat → List Char
  | 0, _ => []
  | fuel + 1, n =>
    if n < 10 then [digitChar n]
    else natDigitsAux fuel (n / 10) ++ [digitChar (n % 10)]

/-- `Number.prototype.toString()` for a natural number. -/
def natToString (n : Nat) : String := ⟨natDigitsAux (n + 1) n⟩

/-- Split a character list at newline characters (`Array.join`'s inverse,
used to turn aggregate-document content back into lines). -/
def splitLinesList (l : List Char) : List (List Char) :=
  l.foldr
    (fun c acc =>
      if c = '\n' then [] :: acc
      else (c :: acc.headI) :: acc.tail)
    [[]]

/-- `Array.prototype.join('\n')`. -/
def joinNL (lines : List String) : String :=
  ⟨List.intercalate ['\n'] (lines.map String.data)⟩

/-- Build the `TextDocument` the host editor presents for a given content
string: lines split at newlines. -/
def TextDocument.ofContent (content : String) : TextDocument :=
  let ls := (splitLinesList content.data).map (fun l => (⟨l⟩ : String))
  ⟨ls.length, fun n => ls.getD n ""⟩

/- ### JS `Map` model -/

/-- Insertion-ordered association list modelling a JavaScript `Map`. -/
abbrev JMap (α β : Type) := List (α × β)

/-- `Map.prototype.get`. -/
def JMap.get {α β : Type} [DecidableEq α] : JMap α β → α → Option β
  | [], _ => none
  | (k', v) :: rest, k => if k' = k then some v else JMap.get rest k

/-- `Map.prototype.set`: replace in place if the key exists (keeping
insertion order), otherwise append. -/
def JMap.set {α β : Type} [DecidableEq α] : JMap α β → α → β → JMap α β
  | [], k, v => [(k, v)]
  | (k', v') :: rest, k, v =>
    if k' = k then (k, v) :: rest else (k', v') :: JMap.set rest k v

/-- `Map.prototype.has`. -/
def JMap.has {α β : Type} [DecidableEq α] (m : JMap α β) (k : α) : Bool :=
  (JMap.get m k).isSome

/-- `Map.prototype.delete` (returning the updated map). -/
def JMap.del {α β : Type} [DecidableEq α] : JMap α β → α → JMap α β
  | [], _ => []
  | (k', v') :: rest, k =>
    if k' = k then rest else (k', v') :: JMap.del rest k

/- ### Data model (src/multi-buffer-search/src/models/types.ts) -/

/-- `SearchOptions`.  The optional context fields appear in the variant
of the record the search commands construct; `isSameSearchOptions`
deliberately compares only the first six fields. -/
structure SearchOptions where
  query : String
  isRegex : Bool
  isCaseSensitive : Bool
  matchWholeWord : Bool
  includePattern : Option String := none
  excludePattern : Option String := none
  contextLines : Nat := 2
  contextBefore : Option Nat := none
  contextAfter : Option Nat := none
  maxResults : Option Nat := none
deriving DecidableEq, Repr

/-- `ReplaceOptions extends SearchOptions { replacement }`. -/
structure ReplaceOptions extends SearchOptions where
  replacement : String
deriving DecidableEq, Repr

/-- `ExcerptInfo` — the unit of retained state.  `buffer` is the owning
`TextDocument`. -/
structure ExcerptInfo where
  id : String
  fileUri : Uri
  buffer : TextDocument
  sourceRange : Range
  multiBufferRange : Range
  contextBefore : Nat
  contextAfter : Nat
  isMatch : Bool
  originalText : String

/-- `MultiBufferMapping`: the aggregate join structure.  `excerpts` is
the canonical id-keyed registry. -/
structure MultiBufferMapping where
  lineToExcerpt : JMap Nat ExcerptInfo
  excerpts : JMap String ExcerptInfo
  excerptsByFile : JMap String (List ExcerptInfo)

/-- A single pending line edit (`TextChange` in changeTracker.ts). -/
structure TextChange where
  range : Range
  newText : String
  originalText : String
deriving DecidableEq, Repr

/-- All pending edits for one file (`FileChange`). -/
structure FileChange where
  uri : Uri
  changes : List TextChange
deriving DecidableEq, Repr

/-- `ValidationResult` returned by the mapping validator. -/
structure ValidationResult where
  isValid : Bool
  errors : List String
deriving DecidableEq, Repr

/- ### Literal replacement (ResultFormatter.applyReplacement, non-regex paths)

`applyReplacement`'s case-insensitive literal branch executes
`text.replace(new RegExp(escape(query), 'gi'), replacement)`.  The
definitions below embed the semantics of that composite JavaScript
expression: left-to-right, non-overlapping, case-insensitive occurrence
replacement where the replacement string undergoes JavaScript's
`GetSubstitution` dollar-escape expansion (`$$`, `$&`, dollar-backquote
for the prefix, dollar-quote for the suffix; the escaped pattern has no
capture groups, so `$n` stays literal). -/

/-- Case folding used to model the regex `i` flag on literal patterns. -/
def lcEq (a b : Char) : Bool := a.toLower = b.toLower

/-- Does `q` match case-insensitively at the head of `t`? -/
def ciStartsWith : List Char → List Char → Bool
  | [], _ => true
  | _ :: _, [] => false
  | q :: qs, t :: ts => lcEq q t && ciStartsWith qs ts

/-- JavaScript `GetSubstitution` for a pattern with no capture groups:
expand `$$`, `$&`, `$` + backquote (prefix before the match) and
`$` + quote (suffix after the match); everything else is literal.
The dollar-backquote and dollar-quote cases compare `Char.toNat`
(96 and 39) rather than using the character literals. -/
def expandDollar (matched before after : List Char) : List Char → List Char
  | [] => []
  | c :: rest =>
    if c = '$' then
      match rest with
      | [] => ['$']
      | d :: rest' =>
        if d = '$' then '$' :: expandDollar matched before after rest'
        else if d = '&' then matched ++ expandDollar matched before after rest'
        else if d.toNat = 96 then before ++ expandDollar matched before after rest'
        else if d.toNat = 39 then after ++ expandDollar matched before after rest'
        else '$' :: d :: expandDollar matched before after rest'
    else c :: expandDollar matched before after rest

/-- Scan of `text.replace(/escaped-query/gi, repl)` for a non-empty
query.  The first `Nat` argument is fuel; since every step advances the
position by at least one character, `orig.length + 1` is always enough. -/
def replGo (q r orig : List Char) : Nat → Nat → List Char
  | 0, _ => []
  | fuel + 1, pos =>
    if orig.length ≤ pos then []
    else if ciStartsWith q (orig.drop pos) then
      expandDollar ((orig.drop pos).take q.length) (orig.take pos)
          (orig.drop (pos + q.length)) r
        ++ replGo q r orig fuel (pos + q.length)
    else orig.getD pos ' ' :: replGo q r orig fuel (pos + 1)

/-- `text.replace(new RegExp('', 'gi'), repl)`: the empty pattern matches
at every position including the end of the string. -/
def emptyPatternReplace (r t : List Char) : List Char :=
  ((List.range t.length).map
      (fun i => expandDollar [] (t.take i) (t.drop i) r ++ [t.getD i ' '])).flatten
    ++ expandDollar [] t [] r

/-- The case-insensitive literal branch of `applyReplacement`. -/
def replaceAllCI (q r t : List Char) : List Char :=
  if q.isEmpty then emptyPatternReplace r t
  else replGo q r t (t.length + 1) 0

/-- Scan of `text.split(query).join(repl)` (the case-sensitive literal
branch): verbatim replacement, no dollar expansion. -/
def splitJoinGo (q r orig : List Char) : Nat → Nat → List Char
  | 0, _ => []
  | fuel + 1, pos =>
    if orig.length ≤ pos then []
    else if q.isPrefixOf (orig.drop pos) then
      r ++ splitJoinGo q r orig fuel (pos + q.length)
    else orig.getD pos ' ' :: splitJoinGo q r orig fuel (pos + 1)

/-- `text.split(query).join(repl)`.  An empty query splits into the
individual characters, so the replacement is interposed strictly between
characters. -/
def splitJoinCS (q r t : List Char) : List Char :=
  if q.isEmpty then List.intercalate r (t.map (fun c => [c]))
  else splitJoinGo q r t (t.length + 1) 0

/- ### ResultFormatter (src/unnamed/part_003) -/

namespace ResultFormatter

/-- `FILE_HEADER_PREFIX` in the source. -/
def markerFileHeader : String := "=== "

/-- `MATCH_LINE_PREFIX` in the source. -/
def markerMatchLine : String := "  "

/-- `CONTEXT_LINE_PREFIX` in the source. -/
def markerContextLine : String := "  "

/-- `LINE_NUMBER_WIDTH` in the source. -/
def lineNumberWidth : Nat := 6

/-- `formatLineNumber`: the 1-based line number right-justified to
`lineNumberWidth` characters, followed by one space. -/
def formatLineNumber (lineNum : Nat) : String :=
  padStart (natToString lineNum) lineNumberWidth ++ " "

/-- `applyReplacement`.  The regex branch delegates to `regexReplace`
(pattern, case-sensitivity flag, replacement, text), a parameter that
stands for JavaScript's `text.replace(new RegExp(query, flags), repl)`
whose engine is external to this repository; the two literal branches
are embedded concretely. -/
def applyReplacement (regexReplace : String → Bool → String → String → String)
    (text : String) (searchOptions : SearchOptions)
    (replaceOptions : ReplaceOptions) : String :=
  if searchOptions.isRegex then
    regexReplace searchOptions.query searchOptions.isCaseSensitive
      replaceOptions.replacement text
  else if searchOptions.isCaseSensitive then
    ⟨splitJoinCS searchOptions.query.data replaceOptions.replacement.data text.data⟩
  else
    ⟨replaceAllCI searchOptions.query.data replaceOptions.replacement.data text.data⟩

/-- `formatHeader`. -/
def formatHeader (options : SearchOptions) (replaceOptions : Option ReplaceOptions) : String :=
  match replaceOptions with
  | some rep =>
    "Multi-Buffer Replace: \"" ++ options.query ++ "\" → \"" ++ rep.replacement ++ "\""
  | none => "Multi-Buffer Search: \"" ++ options.query ++ "\""

/-- `formatFileHeader`; `workspace.asRelativePath` is modelled as the
filesystem path of the URI. -/
def formatFileHeader (uri : Uri) : String := markerFileHeader ++ uri.fsPath

/-- Result of `formatExcerpt`: emitted lines plus the indices (within
those lines) of the match lines. -/
structure FormattedExcerpt where
  lines : List String
  matchLineIndices : List Nat

/-- Is `lineNum` within the excerpt's `sourceRange` (the source's
`isMatchLine` test)? -/
def isMatchLineNum (excerpt : ExcerptInfo) (lineNum : Nat) : Bool :=
  decide (excerpt.sourceRange.start.line ≤ lineNum) &&
    decide (lineNum ≤ excerpt.sourceRange.stop.line)

/-- One line of `formatExcerpt`'s loop body. -/
def renderLine (regexReplace : String → Bool → String → String → String)
    (excerpt : ExcerptInfo) (options : SearchOptions)
    (replaceOptions : Option ReplaceOptions) (lineNum : Nat) : String :=
  let lineText := excerpt.buffer.lineAt lineNum
  let isMatchLine := isMatchLineNum excerpt lineNum
  let formattedText :=
    match replaceOptions with
    | some rep => if isMatchLine then applyReplacement regexReplace lineText options rep
                  else lineText
    | none => lineText
  let pre := if isMatchLine then markerMatchLine else markerContextLine
  formatLineNumber (lineNum + 1) ++ pre ++ formattedText

/-- `formatExcerpt`.  The context range is computed inline exactly as in
the source: `startLine = max(0, sourceRange.start.line - contextBefore)`
(natural subtraction) and
`endLine = min(lineCount - 1, sourceRange.end.line + contextAfter)` over
JavaScript integers, so the loop runs `(endLine + 1 - startLine)` times
(zero times when that is negative). -/
def formatExcerpt (regexReplace : String → Bool → String → String → String)
    (excerpt : ExcerptInfo) (options : SearchOptions)
    (replaceOptions : Option ReplaceOptions) : FormattedExcerpt :=
  let startLine : Nat := excerpt.sourceRange.start.line - excerpt.contextBefore
  let endLineI : Int :=
    min ((excerpt.buffer.lineCount : Int) - 1)
      ((excerpt.sourceRange.stop.line + excerpt.contextAfter : Nat) : Int)
  let count : Nat := (endLineI + 1 - (startLine : Int)).toNat
  let nums := List.range' startLine count
  { lines := nums.map (renderLine regexReplace excerpt options replaceOptions)
    matchLineIndices :=
      (nums.enum.filter (fun p => isMatchLineNum excerpt p.2)).map (·.1) }

/-- State threaded through `formatSearchResults`'s nested loops. -/
structure FormatState where
  lines : List String
  mapping : MultiBufferMapping
  currentLine : Nat

/-- The inner per-excerpt loop body of `formatSearchResults`. -/
def formatStep (regexReplace : String → Bool → String → String → String)
    (options : SearchOptions) (replaceOptions : Option ReplaceOptions)
    (uri : Uri) (st : FormatState) (excerpt : ExcerptInfo) : FormatState :=
  let fe := formatExcerpt regexReplace excerpt options replaceOptions
  let startLine := st.currentLine
  let multiBufferRange :=
    if 0 < fe.lines.length then
      Range.mk ⟨startLine, 0⟩
        ⟨startLine + (fe.lines.length - 1), strLen (fe.lines.getLastD "")⟩
    else Range.mk ⟨startLine, 0⟩ ⟨startLine, 0⟩
  let e' := { excerpt with multiBufferRange := multiBufferRange }
  let lineToExcerpt :=
    fe.matchLineIndices.foldl (fun m i => JMap.set m (startLine + i) e')
      st.mapping.lineToExcerpt
  let excerpts := JMap.set st.mapping.excerpts e'.id e'
  let fileKey := uri.toString
  let excerptsByFile :=
    JMap.set st.mapping.excerptsByFile fileKey
      ((JMap.get st.mapping.excerptsByFile fileKey).getD [] ++ [e'])
  { lines := st.lines ++ fe.lines ++ [""]
    mapping := ⟨lineToExcerpt, excerpts, excerptsByFile⟩
    currentLine := st.currentLine + fe.lines.length + 1 }

/-- The outer per-file loop body of `formatSearchResults`. -/
def formatFileStep (regexReplace : String → Bool → String → String → String)
    (options : SearchOptions) (replaceOptions : Option ReplaceOptions)
    (st : FormatState) (entry : Uri × List ExcerptInfo) : FormatState :=
  let st := { st with lines := st.lines ++ [formatFileHeader entry.1, ""],
                      currentLine := st.currentLine + 2 }
  entry.2.foldl (formatStep regexReplace options replaceOptions entry.1) st

/-- `formatSearchResults`: serialize all excerpts into the aggregate
content and build the `MultiBufferMapping`. -/
def formatSearchResults (regexReplace : String → Bool → String → String → String)
    (excerptsByFile : List (Uri × List ExcerptInfo)) (options : SearchOptions)
    (replaceOptions : Option ReplaceOptions) : String × MultiBufferMapping :=
  let st0 : FormatState :=
    { lines := [formatHeader options replaceOptions, ""]
      mapping := ⟨[], [], []⟩
      currentLine := 2 }
  let st := excerptsByFile.foldl (formatFileStep regexReplace options replaceOptions) st0
  (joinNL st.lines, st.mapping)

end ResultFormatter

/- ### ChangeTracker (src/src/models/excerpt.ts, `ChangeTracker` class) -/

namespace ChangeTracker

/-- `CONTENT_START_INDEX`: 6 chars of line number + 1 space + 2 chars of
prefix = 9. -/
def CONTENT_START_INDEX : Nat := 9

/-- `extractContent`: strip the fixed layout columns and trim. -/
def extractContent (lineText : String) : String :=
  strTrim (strDrop lineText (min CONTENT_START_INDEX (strLen lineText)))

/-- `initialize` (named `initSnapshot` here because of a lexical
restriction on the original name): record, for every match-bearing
mapped line, the extracted content as the diff baseline. -/
def initSnapshot (document : TextDocument) (mapping : MultiBufferMapping) :
    JMap Nat String :=
  mapping.lineToExcerpt.foldl
    (fun m p =>
      if p.2.isMatch then JMap.set m p.1 (extractContent (document.lineAt p.1))
      else m)
    []

/-- The per-line body of `computeChanges`. -/
def computeStep (originalContent : JMap Nat String) (document : TextDocument)
    (m : JMap String FileChange) (p : Nat × ExcerptInfo) : JMap String FileChange :=
  let multiLine := p.1
  let excerpt := p.2
  if excerpt.isMatch then
    let currentContent := extractContent (document.lineAt multiLine)
    match JMap.get originalContent multiLine with
    | none => m
    | some originalLine =>
      if currentContent = originalLine then m
      else
        let fileKey := excerpt.fileUri.toString
        let fileChange := (JMap.get m fileKey).getD ⟨excerpt.fileUri, []⟩
        let sourceLine :=
          excerpt.sourceRange.start.line +
            (multiLine - excerpt.multiBufferRange.start.line)
        let lineLength := strLen (excerpt.buffer.lineAt sourceLine)
        JMap.set m fileKey
          { fileChange with
              changes := fileChange.changes ++
                [⟨⟨⟨sourceLine, 0⟩, ⟨sourceLine, lineLength⟩⟩,
                  currentContent, originalLine⟩] }
  else m

/-- `computeChanges`: diff current content against the snapshot and
group the pending edits by owning file. -/
def computeChanges (originalContent : JMap Nat String) (document : TextDocument)
    (mapping : MultiBufferMapping) : JMap String FileChange :=
  mapping.lineToExcerpt.foldl (computeStep originalContent document) []

end ChangeTracker

/- ### validateMultiBufferMapping (src/multi-buffer-search/src/models/types.ts) -/

/-- Insert into a JS `Set` modelled as a list (membership only). -/
def setAdd (s : List String) (x : String) : List String :=
  if s.contains x then s else s ++ [x]

/-- `validateMultiBufferMapping`: the four consistency passes of the
source, accumulating error messages in order. -/
def validateMultiBufferMapping (mapping : MultiBufferMapping) : ValidationResult :=
  let errs1 := mapping.lineToExcerpt.foldl
    (fun es p =>
      if JMap.has mapping.excerpts p.2.id then es
      else es ++ ["Excerpt " ++ p.2.id ++ " at line " ++ natToString p.1 ++
        " not found in excerpts map"])
    []
  let errs2 := mapping.excerptsByFile.foldl
    (fun es p =>
      p.2.foldl
        (fun es e =>
          if JMap.has mapping.excerpts e.id then es
          else es ++ ["Excerpt " ++ e.id ++ " for file " ++ p.1 ++
            " not found in excerpts map"])
        es)
    errs1
  let referencedIds :=
    mapping.excerptsByFile.foldl (fun s p => p.2.foldl (fun s e => setAdd s e.id) s)
      (mapping.lineToExcerpt.foldl (fun s p => setAdd s p.2.id) [])
  let errs3 := mapping.excerpts.foldl
    (fun es p =>
      if referencedIds.contains p.1 then es
      else es ++ ["Excerpt " ++ p.1 ++
        " exists in excerpts map but is not referenced in lineToExcerpt or excerptsByFile"])
    errs2
  let fileExcerptMap : JMap String (List String) :=
    mapping.excerpts.foldl
      (fun fm p =>
        JMap.set fm p.2.fileUri.fsPath
          (setAdd ((JMap.get fm p.2.fileUri.fsPath).getD []) p.1))
      []
  let errs4 := fileExcerptMap.foldl
    (fun es p =>
      let actualIds :=
        ((JMap.get mapping.excerptsByFile p.1).getD []).map (·.id)
      p.2.foldl
        (fun es id =>
          if actualIds.contains id then es
          else es ++ ["Excerpt " ++ id ++ " for file " ++ p.1 ++
            " missing from excerptsByFile"])
        es)
    errs3
  { isValid := errs4.isEmpty, errors := errs4 }

/- ### SearchService (src/unnamed/part_003; merge logic identical in
src/multi-buffer-search/src/services/searchService.ts) -/

namespace SearchService

/-- `PLACEHOLDER_RANGE`, overwritten later by the formatter. -/
def PLACEHOLDER_RANGE : Range := ⟨⟨0, 0⟩, ⟨0, 0⟩⟩

/-- `expandRange`: expand a match range by the context line counts,
clamping to the document bounds; the start column becomes 0 and the end
column `Number.MAX_SAFE_INTEGER`. -/
def expandRange (range : Range) (contextBefore contextAfter maxLine : Nat) : Range :=
  ⟨⟨range.start.line - contextBefore, 0⟩,
   ⟨min (maxLine - 1) (range.stop.line + contextAfter), maxSafeInteger⟩⟩

/-- The running-merge loop of `mergeOverlappingRanges`.  The source's
guard `current.end.line >= expanded.start.line - 1` over JavaScript
integers is written as `expanded.start.line ≤ current.stop.line + 1`,
which is equivalent and total over `Nat`. -/
def mergeGo (contextBefore contextAfter maxLine : Nat) :
    Range → List Range → List Range
  | current, [] => [current]
  | current, r :: rs =>
    let expanded := expandRange r contextBefore contextAfter maxLine
    if expanded.start.line ≤ current.stop.line + 1 then
      mergeGo contextBefore contextAfter maxLine ⟨current.start, expanded.stop⟩ rs
    else
      current :: mergeGo contextBefore contextAfter maxLine expanded rs

/-- `mergeOverlappingRanges`. -/
def mergeOverlappingRanges (ranges : List Range)
    (contextBefore contextAfter maxLine : Nat) : List Range :=
  match ranges with
  | [] => []
  | r :: rest =>
    mergeGo contextBefore contextAfter maxLine
      (expandRange r contextBefore contextAfter maxLine) rest

/-- Stable insertion used to model `matches.sort((a, b) => aLine - bLine)`. -/
def insertByStart (r : Range) : List Range → List Range
  | [] => [r]
  | x :: xs =>
    if x.start.line ≤ r.start.line then x :: insertByStart r xs else r :: x :: xs

/-- Stable sort by start line. -/
def sortByStartLine : List Range → List Range
  | [] => []
  | x :: xs => insertByStart x (sortByStartLine xs)

/-- `vscode.TextDocument.getText(range)`: the text of the range,
clamped to its lines. -/
def TextDocument.getText (d : TextDocument) (r : Range) : String :=
  let ls := (List.range' r.start.line (r.stop.line + 1 - r.start.line)).map d.lineAt
  let full := (joinNL ls).data.drop r.start.character
  let lastLen := (d.lineAt r.stop.line).data.length
  let endTrim := lastLen - min r.stop.character lastLen
  ⟨(full.reverse.drop endTrim).reverse⟩

/-- `createExcerptsForFile` for a list of primary match ranges: sort by
start line, merge the context-expanded spans, and construct one excerpt
per merged range.  `generateId` is impure (time/counter/random), so the
ids are supplied as a list indexed by position. -/
def createExcerptsForFile (uri : Uri) (document : TextDocument)
    (ranges : List Range) (contextBefore contextAfter : Nat)
    (ids : List String) : List ExcerptInfo :=
  let sorted := sortByStartLine ranges
  let merged := mergeOverlappingRanges sorted contextBefore contextAfter document.lineCount
  merged.enum.map fun p =>
    { id := ids.getD p.1 ""
      fileUri := uri
      buffer := document
      sourceRange := p.2
      multiBufferRange := PLACEHOLDER_RANGE
      contextBefore := contextBefore
      contextAfter := contextAfter
      isMatch := true
      originalText := TextDocument.getText document p.2 }

end SearchService

/- ### findMatchesInDocument (src/unnamed/part_002, fallback scanner) -/

namespace Scanner

/-- `/[A-Za-z0-9_]/.test(ch)`. -/
def wordChar (c : Char) : Bool :=
  (65 ≤ c.toNat && c.toNat ≤ 90) || (97 ≤ c.toNat && c.toNat ≤ 122) ||
    (48 ≤ c.toNat && c.toNat ≤ 57) || c = '_'

/-- `isWordBoundary(text, start, length)`. -/
def isWordBoundary (text : List Char) (start length : Nat) : Bool :=
  let b := start = 0 || !wordChar (text.getD (start - 1) ' ')
  let a := text.length ≤ start + length || !wordChar (text.getD (start + length) ' ')
  b && a

/-- `String.prototype.indexOf(needle, start)`: the first index `i` with
`min start length ≤ i ≤ length` at which `needle` occurs (`none` models
`-1`).  JavaScript clamps the start index to the string length, which is
why an empty needle is still found at the end. -/
def idxOf (needle hay : List Char) (start : Nat) : Option Nat :=
  let lo := min start hay.length
  (List.range' lo (hay.length + 1 - lo)).find? (fun i => needle.isPrefixOf (hay.drop i))

/-- The `lastIndex` update of the regex loop: `exec` sets `lastIndex` to
the match end, and the source bumps it once more after a zero-length
match (`if (m.index === regex.lastIndex) regex.lastIndex++`). -/
def nextLastIndex (j len : Nat) : Nat := if len = 0 then j + 1 else j + len

/-- The regex branch of the per-line `while` loop, fuelled.  `exec t i`
models `regex.exec` of a global JavaScript regex with `lastIndex = i`:
`some (j, len)` is a match of length `len` at index `j`.  `none` as the
overall result means the fuel ran out, which the termination theorem
rules out for well-behaved `exec`. -/
def regexScanAux (exec : List Char → Nat → Option (Nat × Nat)) (wholeWord : Bool)
    (remaining : Nat) (lineNum : Nat) (text : List Char) :
    Nat → Nat → List Range → Option (List Range)
  | 0, _, _ => none
  | fuel + 1, lastIndex, acc =>
    match exec text lastIndex with
    | none => some acc
    | some (j, len) =>
      if remaining ≤ acc.length then some acc
      else
        let acc' :=
          if !wholeWord || isWordBoundary text j len then
            acc ++ [Range.mk ⟨lineNum, j⟩ ⟨lineNum, j + len⟩]
          else acc
        regexScanAux exec wholeWord remaining lineNum text fuel (nextLastIndex j len) acc'

/-- The literal branch of the per-line `while` loop, fuelled.  `haystack`
is the (possibly lowercased) text searched by `indexOf`; `text` is the
original line used for the word-boundary test. -/
def literalScanAux (needle haystack text : List Char) (wholeWord : Bool)
    (remaining : Nat) (lineNum : Nat) :
    Nat → Nat → List Range → Option (List Range)
  | 0, _, _ => none
  | fuel + 1, idx, acc =>
    match idxOf needle haystack idx with
    | none => some acc
    | some found =>
      if remaining ≤ acc.length then some acc
      else
        let acc' :=
          if !wholeWord || isWordBoundary text found needle.length then
            acc ++ [Range.mk ⟨lineNum, found⟩ ⟨lineNum, found + needle.length⟩]
          else acc
        literalScanAux needle haystack text wholeWord remaining lineNum fuel
          (found + max 1 needle.length) acc'

/-- Scan one line of the document with the appropriate branch; fuel
`text.length + 2` is the bound the termination theorem justifies. -/
def scanLine (exec : List Char → Nat → Option (Nat × Nat)) (options : SearchOptions)
    (remaining : Nat) (lineNum : Nat) (text : List Char) (acc : List Range) :
    Option (List Range) :=
  if options.isRegex then
    regexScanAux exec options.matchWholeWord remaining lineNum text
      (text.length + 2) 0 acc
  else
    let haystack := if options.isCaseSensitive then text else text.map Char.toLower
    let needle :=
      if options.isCaseSensitive then options.query.data
      else options.query.data.map Char.toLower
    literalScanAux needle haystack text options.matchWholeWord remaining lineNum
      (text.length + 2) 0 acc

/-- The outer per-line loop of `findMatchesInDocument`; recursion is on
the number of lines left. -/
def scanDoc (exec : List Char → Nat → Option (Nat × Nat)) (options : SearchOptions)
    (remaining : Nat) (document : TextDocument) :
    Nat → Nat → List Range → Option (List Range)
  | _, 0, acc => some acc
  | lineNum, count + 1, acc =>
    if remaining ≤ acc.length then some acc
    else
      match scanLine exec options remaining lineNum (document.lineAt lineNum).data acc with
      | none => none
      | some acc' => scanDoc exec options remaining document (lineNum + 1) count acc'

/-- `findMatchesInDocument`: all match ranges of the document, ordered
by line then column, up to `remaining` results.  `none` means some
per-line loop exceeded its fuel, i.e. the source loop failed to make
progress. -/
def findMatchesInDocument (exec : List Char → Nat → Option (Nat × Nat))
    (document : TextDocument) (options : SearchOptions) (remaining : Nat) :
    Option (List Range) :=
  scanDoc exec options remaining document 0 document.lineCount []

end Scanner

/- ### IncrementalSearchService
(src/multi-buffer-search/src/services/incrementalSearchService.ts) -/

namespace Incremental

/-- Per-file cache entry.  `computeFileHash` feeds the excerpts'
`originalText` through sha256; the hash function itself is external, so
the entry stores the concatenated input of that hash, which is what the
cache-consistency logic depends on. -/
structure CachedExcerpts where
  excerpts : List ExcerptInfo
  fileHash : String
  lastModified : Nat

/-- `SearchCache`. -/
structure SearchCache where
  lastSearchOptions : SearchOptions
  fileVersions : JMap String Nat
  excerptsByFile : JMap String CachedExcerpts

/-- `computeFileHash` modulo the external sha256: the concatenation of
the excerpts' `originalText` snapshots, i.e. the exact byte stream the
source hashes. -/
def computeFileHash (excerpts : List ExcerptInfo) : String :=
  String.join (excerpts.map (·.originalText))

/-- `isSameSearchOptions`: compares only query, isRegex, isCaseSensitive,
matchWholeWord, includePattern and excludePattern. -/
def isSameSearchOptions (a b : SearchOptions) : Bool :=
  a.query = b.query && a.isRegex = b.isRegex &&
    a.isCaseSensitive = b.isCaseSensitive && a.matchWholeWord = b.matchWholeWord &&
    a.includePattern = b.includePattern && a.excludePattern = b.excludePattern

/-- `updateCacheForFile`. -/
def updateCacheForFile (cache : SearchCache) (uri : Uri)
    (excerpts : List ExcerptInfo) (now : Nat) : SearchCache :=
  { cache with
      excerptsByFile :=
        JMap.set cache.excerptsByFile uri.toString
          ⟨excerpts, computeFileHash excerpts, now⟩ }

/-- `initializeCache` (named `initCache` here because of a lexical
restriction on the original name). -/
def initCache (options : SearchOptions) (results : List (Uri × List ExcerptInfo))
    (now : Nat) : SearchCache :=
  results.foldl (fun c p => updateCacheForFile c p.1 p.2 now)
    ⟨options, [], []⟩

/-- Result of `searchWorkspaceIncremental`. -/
structure IncrementalSearchResult where
  added : JMap Uri (List ExcerptInfo)
  modified : JMap Uri (List ExcerptInfo)
  removed : List Uri
  unchanged : JMap Uri (List ExcerptInfo)
  all : JMap Uri (List ExcerptInfo)

/-- Outcome of `stat` + `searchSingleFile` for one pending file, which
the service performs through host I/O: the file may exceed
`MAX_FILE_SIZE_FOR_INCREMENTAL`, `stat` may throw, or the re-scan
returns the file's current excerpts. -/
inductive FileScanOutcome where
  | tooLarge
  | statError
  | ok (excerpts : List ExcerptInfo)

/-- The per-pending-file loop body of `performIncrementalUpdate`. -/
def incrementalFileStep (fileScan : String → FileScanOutcome) (now : Nat)
    (st : IncrementalSearchResult × SearchCache) (fileUri : String) :
    IncrementalSearchResult × SearchCache :=
  let (result, cache) := st
  let uri := Uri.parse fileUri
  let cachedData := JMap.get cache.excerptsByFile fileUri
  match fileScan fileUri with
  | .tooLarge => (result, cache)
  | .statError =>
    match cachedData with
    | some _ =>
      ({ result with removed := result.removed ++ [uri] },
       { cache with excerptsByFile := JMap.del cache.excerptsByFile fileUri })
    | none => (result, cache)
  | .ok newExcerpts =>
    if 0 < newExcerpts.length then
      match cachedData with
      | some _ =>
        ({ result with modified := JMap.set result.modified uri newExcerpts },
         updateCacheForFile cache uri newExcerpts now)
      | none =>
        ({ result with added := JMap.set result.added uri newExcerpts },
         updateCacheForFile cache uri newExcerpts now)
    else
      match cachedData with
      | some _ =>
        ({ result with removed := result.removed ++ [uri] },
         { cache with excerptsByFile := JMap.del cache.excerptsByFile fileUri })
      | none => (result, cache)

/-- `performIncrementalUpdate`: re-scan only the pending files, then
serve every other cached file unchanged. -/
def performIncrementalUpdate (cache : SearchCache) (pending : List String)
    (fileScan : String → FileScanOutcome) (now : Nat) :
    IncrementalSearchResult × SearchCache :=
  let empty : IncrementalSearchResult := ⟨[], [], [], [], []⟩
  let (result, cache) := pending.foldl (incrementalFileStep fileScan now) (empty, cache)
  let result := cache.excerptsByFile.foldl
    (fun r p =>
      if pending.contains p.1 then r
      else
        let uri := Uri.parse p.1
        { r with unchanged := JMap.set r.unchanged uri p.2.excerpts,
                 all := JMap.set r.all uri p.2.excerpts })
    result
  let result :=
    { result with
        all := (result.added ++ result.modified).foldl
          (fun a p => JMap.set a p.1 p.2) result.all }
  (result, cache)

/-- `searchWorkspaceIncremental`.  The service state is the optional
`SearchCache` plus the pending-update set; `fullScanResults` stands for
the `await this.searchWorkspace(options)` host call and `fileScan` for
the per-file re-scan.  Returns the result together with the new cache
and the new pending set (`clearCache` empties both). -/
def searchWorkspaceIncremental (state : Option SearchCache) (pending : List String)
    (options : SearchOptions) (fullScanResults : List (Uri × List ExcerptInfo))
    (fileScan : String → FileScanOutcome) (now : Nat) :
    IncrementalSearchResult × Option SearchCache × List String :=
  let isNewSearch :=
    match state with
    | none => true
    | some cache => !isSameSearchOptions options cache.lastSearchOptions
  if isNewSearch then
    let cache := initCache options fullScanResults now
    (⟨fullScanResults, [], [], [], fullScanResults⟩, some cache, [])
  else
    match state with
    | none => (⟨[], [], [], [], []⟩, none, [])
    | some cache =>
      let (result, cache') := performIncrementalUpdate cache pending fileScan now
      (result, some cache', [])

end Incremental

/- ### Specification-side definition used for comparison (claim C6) -/

/-- Specification-side scan: left-to-right case-insensitive literal
replacement substituting `r` verbatim at each occurrence (same loop
shape as `replGo`, but no dollar expansion). -/
def ciVerbGo (q r orig : List Char) : Nat → Nat → List Char
  | 0, _ => []
  | fuel + 1, pos =>
    if orig.length ≤ pos then []
    else if ciStartsWith q (orig.drop pos) then
      r ++ ciVerbGo q r orig fuel (pos + q.length)
    else orig.getD pos ' ' :: ciVerbGo q r orig fuel (pos + 1)

/-- Specification-side case-insensitive literal replace-all with verbatim
substitution, per the spec's words: "match case-insensitively but
substitute the literal replacement text verbatim". -/
def ciReplaceVerbatim (q r t : List Char) : List Char :=
  if q.isEmpty then
    ((List.range t.length).map (fun i => r ++ [t.getD i ' '])).flatten ++ r
  else ciVerbGo q r t (t.length + 1) 0

/-- Number of "split points" among consecutive expanded spans, measured
the way the merge loop decides them: a new excerpt starts exactly when
the previous expanded span's end line is more than one line before the
next expanded span's start line.  `prevStop` is the end line of the span
preceding the list. -/
def countSplitsFrom (prevStop : Nat) : List Range → Nat
  | [] => 0
  | e :: es =>
    (if e.start.line ≤ prevStop + 1 then 0 else 1) + countSplitsFrom e.stop.line es

/- ### Concrete instances used by the evaluation theorems below -/

/-- Trivial stand-in for the external JavaScript regex-replace engine;
every theorem that uses it does so only on non-regex paths, where the
engine is never consulted. -/
def eng0 : String → Bool → String → String → String := fun _ _ _ t => t

/-- A file URI used by the concrete runs. -/
def u1 : Uri := ⟨"/test/file.ts"⟩

/-- A 7-line document whose line `n` reads `Ln`. -/
def d7 : TextDocument := ⟨7, fun n => "L" ++ natToString n⟩

/-- Case-sensitive literal search options. -/
def opts1 : SearchOptions :=
  { query := "L", isRegex := false, isCaseSensitive := true, matchWholeWord := false }

/-- An excerpt of `d7` whose match region is line 2, with one context
line on each side. -/
def e1 : ExcerptInfo :=
  { id := "e1", fileUri := u1, buffer := d7
    sourceRange := ⟨⟨2, 0⟩, ⟨2, 1⟩⟩
    multiBufferRange := SearchService.PLACEHOLDER_RANGE
    contextBefore := 1, contextAfter := 1, isMatch := true, originalText := "L2" }

/-- The formatted aggregate for the single excerpt `e1`. -/
def fmt1 : String × MultiBufferMapping :=
  ResultFormatter.formatSearchResults eng0 [(u1, [e1])] opts1 none

/-- The aggregate document the host editor presents for `fmt1`. -/
def aggDoc1 : TextDocument := TextDocument.ofContent fmt1.1

/-- The change-tracker baseline taken at open time. -/
def snap1 : JMap Nat String := ChangeTracker.initSnapshot aggDoc1 fmt1.2

/-- `aggDoc1` after the user edits aggregate line 5 (which displays
source line 2 of `d7`) to read `X2`. -/
def edited1 : TextDocument :=
  ⟨aggDoc1.lineCount, fun n => if n = 5 then "     3   X2" else aggDoc1.lineAt n⟩

/-- A 20-line document. -/
def d20 : TextDocument := ⟨20, fun n => "x" ++ natToString n⟩

/-- A million-line document of identical lines. -/
def dBig : TextDocument := ⟨1000000, fun _ => "x"⟩

/-- A single-line excerpt of `dBig` on source line index 999999 (1-based
display number 1000000), no context. -/
def eBig : ExcerptInfo :=
  { id := "e2", fileUri := u1, buffer := dBig
    sourceRange := ⟨⟨999999, 0⟩, ⟨999999, 1⟩⟩
    multiBufferRange := SearchService.PLACEHOLDER_RANGE
    contextBefore := 0, contextAfter := 0, isMatch := true, originalText := "x" }

/-- Replace options: query `foo`, replacement `bar`, case-insensitive. -/
def repBar : ReplaceOptions :=
  { query := "foo", isRegex := false, isCaseSensitive := false,
    matchWholeWord := false, replacement := "bar" }

/-- Replace options whose replacement contains the JavaScript dollar
escape `$&`. -/
def repDollar : ReplaceOptions :=
  { query := "foo", isRegex := false, isCaseSensitive := false,
    matchWholeWord := false, replacement := "$&!" }

/-- A regex-`exec` stand-in that never matches (unused by literal scans). -/
def execNone : List Char → Nat → Option (Nat × Nat) := fun _ _ => none

/-- A one-line document reading `ab`. -/
def dAB : TextDocument := ⟨1, fun _ => "ab"⟩

/-- Empty-query whole-word literal search options. -/
def optsEmptyWW : SearchOptions :=
  { query := "", isRegex := false, isCaseSensitive := false, matchWholeWord := true }

/-- Non-empty-query literal search options. -/
def optsA : SearchOptions :=
  { query := "a", isRegex := false, isCaseSensitive := false, matchWholeWord := false }

/-- The incremental-search cache after a first search with `opts1` that
found the excerpt `e1` in `u1`. -/
def cache1 : Incremental.SearchCache := Incremental.initCache opts1 [(u1, [e1])] 0

/-- `opts1` with a different `contextLines` value (all other fields
equal). -/
def opts1' : SearchOptions := { opts1 with contextLines := 5 }

/-- A second incremental search with `opts1'`, whose re-scan oracles
report no matches anywhere (`fullScanResults = []`, per-file re-scan
returns no excerpts). -/
def run2 :
    Incremental.IncrementalSearchResult × Option Incremental.SearchCache × List String :=
  Incremental.searchWorkspaceIncremental (some cache1) [] opts1' []
    (fun _ => .ok []) 1

/-! ## Theorems -/

/- ### Association-list map lemmas -/

theorem JMap.get_set {α β : Type} [DecidableEq α] (m : JMap α β) (k k' : α) (v : β) :
    JMap.get (JMap.set m k v) k' = if k' = k then some v else JMap.get m k' := by
  induction m with
  | nil =>
    by_cases h : k' = k <;> simp [JMap.set, JMap.get, h]
    · intro h'; exact absurd h'.symm h
  | cons p rest ih =>
    obtain ⟨k₀, v₀⟩ := p
    by_cases h₀ : k₀ = k
    · subst h₀
      by_cases h' : k' = k₀
      · subst h'
        simp [JMap.set, JMap.get]
      · have h'' : ¬ k₀ = k' := fun h => h' h.symm
        simp [JMap.set, JMap.get, h', h'']
    · by_cases h' : k₀ = k'
      · subst h'
        simp [JMap.set, JMap.get, h₀]
      · simp [JMap.set, JMap.get, h₀, h', ih]

theorem JMap.mem_set {α β : Type} [DecidableEq α] (m : JMap α β) (k : α) (v : β)
    (p : α × β) (hp : p ∈ JMap.set m k v) : p = (k, v) ∨ p ∈ m := by
  induction m with
  | nil =>
    simp [JMap.set] at hp
    exact Or.inl hp
  | cons q rest ih =>
    obtain ⟨k₀, v₀⟩ := q
    by_cases h₀ : k₀ = k
    · subst h₀
      simp [JMap.set] at hp
      rcases hp with h | h
      · exact Or.inl h
      · exact Or.inr (List.mem_cons_of_mem _ h)
    · simp only [JMap.set, if_neg h₀, List.mem_cons] at hp
      rcases hp with h | h
      · exact Or.inr (by simp [h])
      · rcases ih h with h' | h'
        · exact Or.inl h'
        · exact Or.inr (List.mem_cons_of_mem _ h')

theorem JMap.get_mem {α β : Type} [DecidableEq α] (m : JMap α β) (k : α) (v : β)
    (h : JMap.get m k = some v) : (k, v) ∈ m := by
  induction m with
  | nil => simp [JMap.get] at h
  | cons q rest ih =>
    obtain ⟨k₀, v₀⟩ := q
    by_cases h₀ : k₀ = k
    · subst h₀
      simp [JMap.get] at h
      simp [h]
    · simp [JMap.get, h₀] at h
      exact List.mem_cons_of_mem _ (ih h)

/- ### Claim C1 -/

/-- C1.  The claim states that the validator reports no errors on every
aggregate mapping built by `ResultFormatter.formatSearchResults` from a
non-empty per-file excerpt map.  It does not: the formatter keys
`excerptsByFile` by `uri.toString()` (`file:///test/file.ts`) while the
validator's grouping pass looks the file up by `excerpt.fileUri.fsPath`
(`/test/file.ts`), so for the one-excerpt input `[(u1, [e1])]` the
grouping pass reports the excerpt as missing and validation fails.  The
first three passes produce no errors — the error list below is exactly
the grouping-pass message. -/
theorem C1_validator_rejects_formatter_mapping :
    (validateMultiBufferMapping fmt1.2).errors =
        ["Excerpt e1 for file /test/file.ts missing from excerptsByFile"] ∧
      (validateMultiBufferMapping fmt1.2).isValid = false := by
  constructor <;> rfl

/- ### Claim C3 -/

/-- C3.  The claim states that the source line computed by
`ChangeTracker.computeChanges` is exactly the file line whose text the
formatter rendered at the edited aggregate line.  It is not: aggregate
line 5 of the formatted output displays source line 2 of `d7` (the line
`L2`, shown with display number 3), yet after editing that aggregate
line the tracker emits a change targeting source line 3 — the formula
`sourceRange.start.line + (aggregateLine - multiBufferRange.start.line)`
is off by the context lines rendered before `sourceRange`, because
`multiBufferRange.start` is the aggregate position of the first context
line, not of `sourceRange.start`. -/
theorem C3_tracker_targets_wrong_source_line :
    aggDoc1.lineAt 5 = ResultFormatter.formatLineNumber 3 ++ "  " ++ d7.lineAt 2 ∧
      d7.lineAt 2 = "L2" ∧
      ChangeTracker.computeChanges snap1 edited1 fmt1.2 =
        [(Uri.toString u1,
          { uri := u1,
            changes := [{ range := ⟨⟨3, 0⟩, ⟨3, 2⟩⟩,
                          newText := "X2", originalText := "L2" }] })] := by
  refine ⟨rfl, rfl, rfl⟩

/- ### Claim C4 counterexample -/

/-- C4 counterexample.  For a single raw match on line 5 (columns 0-3)
with one context line each side in a 20-line document, the claim says
the built excerpt's `sourceRange` spans the match's original lines 5-5;
the excerpt builder actually stores the context-expanded span 4-6. -/
theorem C4_counterexample :
    (SearchService.createExcerptsForFile u1 d20 [⟨⟨5, 0⟩, ⟨5, 3⟩⟩] 1 1 ["e1"]).map
        (fun e => (e.sourceRange.start.line, e.sourceRange.stop.line)) = [(4, 6)] ∧
      ((4 : Nat), (6 : Nat)) ≠ ((5 : Nat), (5 : Nat)) := by
  exact ⟨rfl, by decide⟩

/- ### Claim C4 amended -/

/-- C4 amended.  For every excerpt built from exactly one raw match, the
excerpt's `sourceRange` is the context-expanded match span: it runs from
`max(0, match.start.line - contextBefore)` (natural subtraction) to
`min(lineCount - 1, match.end.line + contextAfter)`, with start column 0
and end column `Number.MAX_SAFE_INTEGER` — context lines are included in
`sourceRange`, not excluded from it. -/
theorem C4_sourceRange_context_expanded (uri : Uri) (document : TextDocument)
    (r : Range) (cb ca : Nat) (ids : List String) :
    SearchService.createExcerptsForFile uri document [r] cb ca ids =
        [{ id := ids.getD 0 ""
           fileUri := uri
           buffer := document
           sourceRange := ⟨⟨r.start.line - cb, 0⟩,
             ⟨min (document.lineCount - 1) (r.stop.line + ca), maxSafeInteger⟩⟩
           multiBufferRange := SearchService.PLACEHOLDER_RANGE
           contextBefore := cb
           contextAfter := ca
           isMatch := true
           originalText := SearchService.TextDocument.getText document
             (SearchService.expandRange r cb ca document.lineCount) }] ∧
      (SearchService.createExcerptsForFile uri document [r] cb ca ids).map
          (fun e => (e.sourceRange.start.line, e.sourceRange.stop.line)) =
        [(r.start.line - cb, min (document.lineCount - 1) (r.stop.line + ca))] := by
  constructor <;> rfl

/- ### Claim C5 -/

/-- The number of excerpts the merge loop emits is one more than the
number of split points: consecutive expanded spans are merged exactly
when the earlier span's end line is within one line of the later span's
start line. -/
theorem mergeGo_length (cb ca maxLine : Nat) :
    ∀ (rs : List Range) (current : Range),
      (SearchService.mergeGo cb ca maxLine current rs).length =
        1 + countSplitsFrom current.stop.line
              (rs.map fun r => SearchService.expandRange r cb ca maxLine) := by
  intro rs
  induction rs with
  | nil => intro current; rfl
  | cons r rs ih =>
    intro current
    by_cases h :
        (SearchService.expandRange r cb ca maxLine).start.line ≤ current.stop.line + 1
    · simp only [SearchService.mergeGo, if_pos h, List.map_cons, countSplitsFrom, ih]
      omega
    · simp only [SearchService.mergeGo, if_neg h, List.map_cons, countSplitsFrom, ih,
        List.length_cons]
      omega

/-- The merge loop always emits at least one range, and the first one
starts where `current` starts. -/
theorem mergeGo_head (cb ca maxLine : Nat) :
    ∀ (rs : List Range) (current : Range),
      ∃ stop tail, SearchService.mergeGo cb ca maxLine current rs =
        Range.mk current.start stop :: tail := by
  intro rs
  induction rs with
  | nil =>
    intro current
    exact ⟨current.stop, [], by cases current; rfl⟩
  | cons r rs ih =>
    intro current
    by_cases h :
        (SearchService.expandRange r cb ca maxLine).start.line ≤ current.stop.line + 1
    · obtain ⟨s, t, heq⟩ :=
        ih ⟨current.start, (SearchService.expandRange r cb ca maxLine).stop⟩
      exact ⟨s, t, by simp only [SearchService.mergeGo, if_pos h]; exact heq⟩
    · refine ⟨current.stop,
        SearchService.mergeGo cb ca maxLine
          (SearchService.expandRange r cb ca maxLine) rs, ?_⟩
      simp only [SearchService.mergeGo, if_neg h]

/-- Consecutive output ranges of the merge loop are separated by a gap
of more than one line. -/
theorem mergeGo_chain (cb ca maxLine : Nat) :
    ∀ (rs : List Range) (current : Range),
      List.Chain' (fun x y => x.stop.line + 1 < y.start.line)
        (SearchService.mergeGo cb ca maxLine current rs) := by
  intro rs
  induction rs with
  | nil => intro current; simp [SearchService.mergeGo]
  | cons r rs ih =>
    intro current
    by_cases h :
        (SearchService.expandRange r cb ca maxLine).start.line ≤ current.stop.line + 1
    · simpa only [SearchService.mergeGo, if_pos h] using
        ih ⟨current.start, (SearchService.expandRange r cb ca maxLine).stop⟩
    · simp only [SearchService.mergeGo, if_neg h]
      obtain ⟨s, t, heq⟩ := mergeGo_head cb ca maxLine rs
        (SearchService.expandRange r cb ca maxLine)
      rw [heq, List.chain'_cons]
      exact ⟨by simp at heq ⊢; omega, heq ▸ ih _⟩

/-- Well-formedness of the merge loop's output: every emitted range has
its start line at or before its end line, provided the current range is
well-formed, the expanded spans are well-formed, and their start lines
dominate the current start (sorted input). -/
theorem mergeGo_wf (cb ca maxLine : Nat) :
    ∀ (rs : List Range) (current : Range),
      current.start.line ≤ current.stop.line →
      (∀ r ∈ rs,
        (SearchService.expandRange r cb ca maxLine).start.line ≤
          (SearchService.expandRange r cb ca maxLine).stop.line) →
      (∀ r ∈ rs,
        current.start.line ≤ (SearchService.expandRange r cb ca maxLine).start.line) →
      List.Pairwise (fun a b => a.start.line ≤ b.start.line)
        (rs.map fun r => SearchService.expandRange r cb ca maxLine) →
      ∀ x ∈ SearchService.mergeGo cb ca maxLine current rs,
        x.start.line ≤ x.stop.line := by
  intro rs
  induction rs with
  | nil =>
    intro current hcur _ _ _ x hx
    simp [SearchService.mergeGo] at hx
    subst hx
    exact hcur
  | cons r rs ih =>
    intro current hcur hwf hdom hpair x hx
    rw [List.map_cons, List.pairwise_cons] at hpair
    by_cases h :
        (SearchService.expandRange r cb ca maxLine).start.line ≤ current.stop.line + 1
    · rw [SearchService.mergeGo, if_pos h] at hx
      refine ih ⟨current.start, (SearchService.expandRange r cb ca maxLine).stop⟩ ?_
        (fun r' hr' => hwf r' (List.mem_cons_of_mem _ hr'))
        (fun r' hr' => ?_) hpair.2 x hx
      · have h1 := hdom r (List.mem_cons_self _ _)
        have h2 := hwf r (List.mem_cons_self _ _)
        simpa using le_trans h1 h2
      · have h1 := hdom r (List.mem_cons_self _ _)
        have h2 := hpair.1 _ (List.mem_map_of_mem _ hr')
        simpa using le_trans h1 h2
    · rw [SearchService.mergeGo, if_neg h] at hx
      rcases List.mem_cons.mp hx with rfl | hx'
      · exact hcur
      · refine ih (SearchService.expandRange r cb ca maxLine)
          (hwf r (List.mem_cons_self _ _))
          (fun r' hr' => hwf r' (List.mem_cons_of_mem _ hr'))
          (fun r' hr' => hpair.1 _ (List.mem_map_of_mem _ hr'))
          hpair.2 x hx'

/-- In a chain of well-formed, gap-separated ranges, the head ends
before every later range starts. -/
theorem chain_sep_all :
    ∀ (l : List Range) (x : Range),
      (∀ y ∈ l, y.start.line ≤ y.stop.line) →
      List.Chain' (fun a b => a.stop.line + 1 < b.start.line) (x :: l) →
      ∀ y ∈ l, x.stop.line < y.start.line := by
  intro l
  induction l with
  | nil => simp
  | cons z l ih =>
    intro x hwf hchain y hy
    rw [List.chain'_cons] at hchain
    rcases List.mem_cons.mp hy with rfl | hy'
    · omega
    · have hz2 : z.start.line ≤ z.stop.line := hwf z (List.mem_cons_self _ _)
      have hrec := ih z (fun y' hy'' => hwf y' (List.mem_cons_of_mem _ hy''))
        hchain.2 y hy'
      omega

/-- Gap-separated chains of well-formed ranges are pairwise separated. -/
theorem pairwise_sep_of_chain :
    ∀ l : List Range,
      (∀ x ∈ l, x.start.line ≤ x.stop.line) →
      List.Chain' (fun x y => x.stop.line + 1 < y.start.line) l →
      List.Pairwise (fun x y => x.stop.line < y.start.line) l := by
  intro l
  induction l with
  | nil => simp
  | cons x l ih =>
    intro hwf hchain
    rw [List.pairwise_cons]
    exact ⟨chain_sep_all l x (fun y hy => hwf y (List.mem_cons_of_mem _ hy)) hchain,
      ih (fun y hy => hwf y (List.mem_cons_of_mem _ hy)) hchain.tail⟩

/-- C5.  For match ranges sorted by start line and lying within the
document: (1) matches at lines 5 and 8 with one context line each side
(expanded to 4-6 and 7-9) merge into a single excerpt spanning lines
4-9; (2) the number of emitted excerpts is one plus the number of
consecutive expanded-span pairs whose gap exceeds one line, i.e. two
expanded spans merge exactly when the earlier one's end line is within
one line of the later one's start line; (3) consecutive output spans
are separated by more than one line; (4) every output span is
well-formed and the output is pairwise non-overlapping and ordered by
ascending start line. -/
theorem C5_merge_properties (ranges : List Range) (cb ca maxLine : Nat)
    (hsorted : List.Pairwise (fun a b => a.start.line ≤ b.start.line) ranges)
    (hvalid : ∀ r ∈ ranges, r.start.line ≤ r.stop.line ∧ r.stop.line < maxLine) :
    SearchService.mergeOverlappingRanges
        [⟨⟨5, 0⟩, ⟨5, 3⟩⟩, ⟨⟨8, 0⟩, ⟨8, 3⟩⟩] 1 1 20 =
        [⟨⟨4, 0⟩, ⟨9, maxSafeInteger⟩⟩] ∧
      ((SearchService.mergeOverlappingRanges ranges cb ca maxLine).length =
        match ranges with
        | [] => 0
        | r :: rest =>
          1 + countSplitsFrom (SearchService.expandRange r cb ca maxLine).stop.line
                (rest.map fun r' => SearchService.expandRange r' cb ca maxLine)) ∧
      List.Chain' (fun x y => x.stop.line + 1 < y.start.line)
        (SearchService.mergeOverlappingRanges ranges cb ca maxLine) ∧
      (∀ x ∈ SearchService.mergeOverlappingRanges ranges cb ca maxLine,
        x.start.line ≤ x.stop.line) ∧
      List.Pairwise (fun x y => x.stop.line < y.start.line)
        (SearchService.mergeOverlappingRanges ranges cb ca maxLine) := by
  have hwfout : ∀ x ∈ SearchService.mergeOverlappingRanges ranges cb ca maxLine,
      x.start.line ≤ x.stop.line := by
    cases ranges with
    | nil => simp [SearchService.mergeOverlappingRanges]
    | cons r rest =>
      rw [List.pairwise_cons] at hsorted
      refine mergeGo_wf cb ca maxLine rest (SearchService.expandRange r cb ca maxLine)
        ?_ ?_ ?_ ?_
      · have := hvalid r (List.mem_cons_self _ _)
        simp [SearchService.expandRange]
        omega
      · intro r' hr'
        have := hvalid r' (List.mem_cons_of_mem _ hr')
        simp [SearchService.expandRange]
        omega
      · intro r' hr'
        have h1 := hsorted.1 r' hr'
        simp [SearchService.expandRange]
        omega
      · refine List.Pairwise.map _ ?_ hsorted.2
        intro a b hab
        simp [SearchService.expandRange]
        omega
  have hchainout : List.Chain' (fun x y => x.stop.line + 1 < y.start.line)
      (SearchService.mergeOverlappingRanges ranges cb ca maxLine) := by
    cases ranges with
    | nil => simp [SearchService.mergeOverlappingRanges]
    | cons r rest => exact mergeGo_chain cb ca maxLine rest _
  refine ⟨by decide, ?_, hchainout, hwfout,
    pairwise_sep_of_chain _ hwfout hchainout⟩
  cases ranges with
  | nil => rfl
  | cons r rest => exact mergeGo_length cb ca maxLine rest _

/-- Witness for C5 at the spec's concrete example (matches at lines 5
and 8, one context line each side, 20-line document). -/
theorem C5_merge_properties_witness :
    List.Pairwise (fun x y => x.stop.line < y.start.line)
      (SearchService.mergeOverlappingRanges
        [⟨⟨5, 0⟩, ⟨5, 3⟩⟩, ⟨⟨8, 0⟩, ⟨8, 3⟩⟩] 1 1 20) :=
  (C5_merge_properties [⟨⟨5, 0⟩, ⟨5, 3⟩⟩, ⟨⟨8, 0⟩, ⟨8, 3⟩⟩] 1 1 20
    (by decide) (by decide)).2.2.2.2

/- ### Claim C6 counterexample -/

/-- C6 counterexample.  Case-insensitive literal replacement does not
substitute the replacement text verbatim when it contains a JavaScript
dollar escape: replacing `foo` by the three-character string `$&!` in
the line `foo` yields `foo!` (the `$&` expands to the matched text), not
the verbatim `$&!`. -/
theorem C6_counterexample :
    ResultFormatter.applyReplacement eng0 "foo" repDollar.toSearchOptions repDollar =
        "foo!" ∧
      ("foo!" : String) ≠ "$&!" := by
  exact ⟨rfl, by decide⟩

/- ### Claim C6 amended -/

/-- A dollar-free replacement string passes through JavaScript's
substitution expansion unchanged. -/
theorem expandDollar_noDollar (matched before after : List Char) :
    ∀ r : List Char, (∀ c ∈ r, c ≠ '$') →
      expandDollar matched before after r = r := by
  intro r
  induction r with
  | nil => intro _; rfl
  | cons c rest ih =>
    intro h
    have hc : ¬ c = '$' := h c (List.mem_cons_self _ _)
    have ih' := ih (fun c' hc' => h c' (List.mem_cons_of_mem _ hc'))
    cases rest with
    | nil => rw [expandDollar.eq_2, if_neg hc, expandDollar.eq_1]
    | cons d rest' => rw [expandDollar.eq_3, if_neg hc, ih']

/-- With a dollar-free replacement, the embedded replacement scan and
the verbatim specification scan agree step for step. -/
theorem replGo_verbatim (q r orig : List Char) (hr : ∀ c ∈ r, c ≠ '$') :
    ∀ fuel pos, replGo q r orig fuel pos = ciVerbGo q r orig fuel pos := by
  intro fuel
  induction fuel with
  | zero => intro pos; rfl
  | succ fuel ih =>
    intro pos
    simp only [replGo, ciVerbGo]
    by_cases h1 : orig.length ≤ pos
    · simp [h1]
    · simp only [if_neg h1]
      by_cases h2 : ciStartsWith q (orig.drop pos) = true
      · simp [h2, ih, expandDollar_noDollar _ _ _ r hr]
      · simp [h2, ih]

/-- With a dollar-free replacement, the case-insensitive literal branch
is exactly the verbatim specification function. -/
theorem replaceAllCI_verbatim (q r t : List Char) (hr : ∀ c ∈ r, c ≠ '$') :
    replaceAllCI q r t = ciReplaceVerbatim q r t := by
  unfold replaceAllCI ciReplaceVerbatim
  by_cases hq : q.isEmpty
  · simp only [if_pos hq, emptyPatternReplace]
    congr 1
    · congr 1
      refine List.map_congr_left ?_
      intro i _
      rw [expandDollar_noDollar _ _ _ r hr]
    · exact expandDollar_noDollar _ _ _ r hr
  · simp only [if_neg hq]
    exact replGo_verbatim q r t hr _ _

/-- C6 amended.  Case-insensitive literal replacement matches the query
case-insensitively and replaces every occurrence; the replacement text
is substituted verbatim provided it contains no `$` character (a `$`
introduces a JavaScript substitution escape).  In particular query `foo`
with replacement `bar` on the line `Foo and foo` produces
`bar and bar`. -/
theorem C6_ci_literal_replacement
    (regexReplace : String → Bool → String → String → String)
    (text : String) (so : SearchOptions) (rep : ReplaceOptions)
    (hregex : so.isRegex = false) (hcase : so.isCaseSensitive = false)
    (hr : ∀ c ∈ rep.replacement.data, c ≠ '$') :
    ResultFormatter.applyReplacement regexReplace text so rep =
        ⟨ciReplaceVerbatim so.query.data rep.replacement.data text.data⟩ ∧
      ResultFormatter.applyReplacement eng0 "Foo and foo" repBar.toSearchOptions repBar =
        "bar and bar" := by
  constructor
  · have hlit : ResultFormatter.applyReplacement regexReplace text so rep =
        ⟨replaceAllCI so.query.data rep.replacement.data text.data⟩ := by
      unfold ResultFormatter.applyReplacement
      rw [hregex, hcase]
      simp only [Bool.false_eq_true, if_false]
    rw [hlit, replaceAllCI_verbatim _ _ _ hr]
  · rfl

/-- Witness for C6 at the spec's concrete replacement example. -/
theorem C6_ci_literal_replacement_witness :
    ResultFormatter.applyReplacement eng0 "Foo and foo" repBar.toSearchOptions repBar =
      ⟨ciReplaceVerbatim "foo".data "bar".data "Foo and foo".data⟩ :=
  (C6_ci_literal_replacement eng0 "Foo and foo" repBar.toSearchOptions repBar
    rfl rfl (by decide)).1

/- ### Claim C7 counterexample -/

/-- C7 counterexample.  The line-number field is not fixed at 6
characters: for source line index 999999 (display number 1000000,
7 digits) `padStart` leaves the number unpadded, the emitted line is 11
characters (10 columns before the 1-character text instead of 9), and
stripping `CONTENT_START_INDEX = 9` columns no longer yields the line
text. -/
theorem C7_counterexample :
    (ResultFormatter.formatExcerpt eng0 eBig opts1 none).lines = ["1000000   x"] ∧
      strDrop "1000000   x" 9 ≠ dBig.lineAt 999999 ∧
      strLen "1000000   x" ≠ 9 + strLen (dBig.lineAt 999999) := by
  exact ⟨rfl, by decide, by decide⟩

/- ### Claim C7 amended -/

/-- Digit-count bound for the fuelled decimal renderer. -/
theorem natDigitsAux_length :
    ∀ fuel n k, n < fuel → n < 10 ^ k → 1 ≤ k → (natDigitsAux fuel n).length ≤ k := by
  intro fuel
  induction fuel with
  | zero => intro n k h _ _; omega
  | succ fuel ih =>
    intro n k hfuel hk h1
    by_cases h10 : n < 10
    · simp only [natDigitsAux, if_pos h10, List.length_singleton]
      omega
    · simp only [natDigitsAux, if_neg h10, List.length_append, List.length_singleton]
      have hk2 : 2 ≤ k := by
        rcases k with _ | k
        · omega
        · rcases k with _ | k
          · simp at hk
            omega
          · omega
      have hdiv : n / 10 < 10 ^ (k - 1) := by
        rw [Nat.div_lt_iff_lt_mul (by norm_num)]
        calc n < 10 ^ k := hk
          _ = 10 ^ (k - 1) * 10 := by
              rw [← pow_succ]
              congr 1
              omega
      have hrec := ih (n / 10) (k - 1) (by omega) hdiv (by omega)
      omega

/-- `Number.prototype.toString` of `n < 10^k` has at most `k` digits. -/
theorem natToString_length_le (n k : Nat) (h : n < 10 ^ k) (h1 : 1 ≤ k) :
    strLen (natToString n) ≤ k :=
  natDigitsAux_length (n + 1) n k (by omega) h h1

/-- The match and context prefixes are the same two-character string. -/
theorem marker_ite (b : Bool) :
    (if b then ResultFormatter.markerMatchLine else ResultFormatter.markerContextLine) =
      ResultFormatter.markerMatchLine := by
  cases b <;> rfl

/-- C7 amended.  Provided every rendered 1-based line number has at most
6 digits (i.e. the last rendered line index stays below 999999), every
line emitted by `formatExcerpt` consists of a 6-character right-justified
line-number field, one space, the 2-character content prefix, and then
the line text (9 columns in total); `ChangeTracker.extractContent`
strips exactly those 9 columns (then trims), and the tracker's
`CONTENT_START_INDEX` equals the formatter's field width plus separator
plus prefix width.  For line numbers of 7 or more digits the field
widens and the two components disagree. -/
theorem C7_layout (regexReplace : String → Bool → String → String → String)
    (excerpt : ExcerptInfo) (options : SearchOptions) (rep : Option ReplaceOptions)
    (hbound : excerpt.sourceRange.stop.line + excerpt.contextAfter + 1 < 1000000) :
    (∀ line ∈ (ResultFormatter.formatExcerpt regexReplace excerpt options rep).lines,
      ∃ num text,
        line = padStart (natToString num) ResultFormatter.lineNumberWidth ++ " " ++
            ResultFormatter.markerMatchLine ++ text ∧
          strLen (padStart (natToString num) ResultFormatter.lineNumberWidth) = 6 ∧
          strDrop line ChangeTracker.CONTENT_START_INDEX = text ∧
          ChangeTracker.extractContent line = strTrim text) ∧
      ChangeTracker.CONTENT_START_INDEX =
        ResultFormatter.lineNumberWidth + 1 + strLen ResultFormatter.markerMatchLine := by
  refine ⟨?_, rfl⟩
  intro line hline
  simp only [ResultFormatter.formatExcerpt] at hline
  rcases List.mem_map.mp hline with ⟨n, hn, hrender⟩
  rw [List.mem_range'_1] at hn
  have hnum : n + 1 < 1000000 := by
    have hmin : min ((excerpt.buffer.lineCount : Int) - 1)
        ((excerpt.sourceRange.stop.line + excerpt.contextAfter : Nat) : Int) ≤
        ((excerpt.sourceRange.stop.line + excerpt.contextAfter : Nat) : Int) :=
      min_le_right _ _
    omega
  have hlen6 : strLen (padStart (natToString (n + 1)) 6) = 6 := by
    have hd : strLen (natToString (n + 1)) ≤ 6 := by
      refine natToString_length_le (n + 1) 6 ?_ (by norm_num)
      norm_num
      omega
    simp only [padStart, strLen, List.length_append, List.length_replicate] at hd ⊢
    omega
  set ft := (match rep with
    | some r =>
      if ResultFormatter.isMatchLineNum excerpt n then
        ResultFormatter.applyReplacement regexReplace (excerpt.buffer.lineAt n) options r
      else excerpt.buffer.lineAt n
    | none => excerpt.buffer.lineAt n) with hft
  have hline_eq : line =
      padStart (natToString (n + 1)) ResultFormatter.lineNumberWidth ++ " " ++
        ResultFormatter.markerMatchLine ++ ft := by
    rw [← hrender]
    show ResultFormatter.formatLineNumber (n + 1) ++
        (if ResultFormatter.isMatchLineNum excerpt n then ResultFormatter.markerMatchLine
          else ResultFormatter.markerContextLine) ++ ft = _
    rw [marker_ite]
    rfl
  have hdata : line.data =
      ((padStart (natToString (n + 1)) 6).data ++ " ".data ++ "  ".data) ++ ft.data := by
    rw [hline_eq]
    rfl
  have hpreflen :
      ((padStart (natToString (n + 1)) 6).data ++ " ".data ++ "  ".data).length = 9 := by
    simp only [List.length_append]
    have h6 : (padStart (natToString (n + 1)) 6).data.length = 6 := hlen6
    rw [h6]
    rfl
  have hdrop : strDrop line 9 = ft := by
    show String.mk (line.data.drop 9) = ft
    rw [hdata, ← hpreflen, List.drop_left]
  exact ⟨n + 1, ft, hline_eq, hlen6, hdrop, by
    show strTrim (strDrop line (min 9 (strLen line))) = strTrim ft
    have h9 : min 9 (strLen line) = 9 := by
      have hl : strLen line = 9 + ft.data.length := by
        show line.data.length = _
        rw [hdata, List.length_append, hpreflen]
      omega
    rw [h9, hdrop]⟩

/-- Witness for C7 at the concrete excerpt `e1`: aggregate content line
`     3   L2`. -/
theorem C7_layout_witness :
    ∃ num text,
      ("     3   L2" : String) = padStart (natToString num) ResultFormatter.lineNumberWidth ++
          " " ++ ResultFormatter.markerMatchLine ++ text ∧
        strLen (padStart (natToString num) ResultFormatter.lineNumberWidth) = 6 ∧
        strDrop "     3   L2" ChangeTracker.CONTENT_START_INDEX = text ∧
        ChangeTracker.extractContent "     3   L2" = strTrim text :=
  (C7_layout eng0 e1 opts1 none (by decide)).1 "     3   L2" (by decide)

/- ### Claim C8 amended -/

/-- Nonempty strings have nonempty character lists. -/
theorem data_ne_nil_of_ne_empty {q : String} (h : q ≠ "") : q.data ≠ [] := by
  intro hd
  apply h
  cases q
  cases hd
  rfl

/-- A successful `indexOf` with a non-empty needle lands at or after the
query position and strictly inside the haystack. -/
theorem idxOf_some_facts (needle hay : List Char) (start found : Nat)
    (hne : needle ≠ []) (h : Scanner.idxOf needle hay start = some found) :
    start ≤ found ∧ found < hay.length := by
  unfold Scanner.idxOf at h
  have hpred := List.find?_some h
  have hmem := List.mem_of_find?_eq_some h
  rw [List.mem_range'_1] at hmem
  have hlt : found < hay.length := by
    by_contra hge'
    push_neg at hge'
    have hdrop : hay.drop found = [] := List.drop_eq_nil_of_le hge'
    rw [hdrop] at hpred
    cases needle with
    | nil => exact hne rfl
    | cons c cs => simp [List.isPrefixOf] at hpred
  exact ⟨by omega, hlt⟩

/-- Fuel sufficiency for the regex branch: since the scan position
strictly advances each iteration (also after zero-length matches), fuel
exceeding `text.length + 1 - lastIndex` always suffices. -/
theorem regexScanAux_isSome (exec : List Char → Nat → Option (Nat × Nat))
    (hge : ∀ t i j len, exec t i = some (j, len) → i ≤ j)
    (hle : ∀ t i j len, exec t i = some (j, len) → j + len ≤ t.length)
    (ww : Bool) (remaining lineNum : Nat) (text : List Char) :
    ∀ fuel lastIndex acc, text.length + 1 - lastIndex < fuel →
      (Scanner.regexScanAux exec ww remaining lineNum text fuel lastIndex acc).isSome
        = true := by
  intro fuel
  induction fuel with
  | zero => intro lastIndex acc h; omega
  | succ fuel ih =>
    intro lastIndex acc h
    rw [Scanner.regexScanAux]
    cases hexec : exec text lastIndex with
    | none => rfl
    | some jl =>
      obtain ⟨j, len⟩ := jl
      by_cases hrem : remaining ≤ acc.length
      · simp [hrem]
      · simp only [if_neg hrem]
        refine ih _ _ ?_
        have h1 := hge text lastIndex j len hexec
        have h2 := hle text lastIndex j len hexec
        unfold Scanner.nextLastIndex
        by_cases hz : len = 0
        · rw [if_pos hz]; omega
        · rw [if_neg hz]; omega

/-- Fuel sufficiency for the literal branch with a non-empty needle:
the position advances by at least one character per iteration. -/
theorem literalScanAux_isSome (needle haystack text : List Char) (ww : Bool)
    (remaining lineNum : Nat) (hne : needle ≠ []) :
    ∀ fuel idx acc, haystack.length + 1 - idx < fuel →
      (Scanner.literalScanAux needle haystack text ww remaining lineNum
        fuel idx acc).isSome = true := by
  intro fuel
  induction fuel with
  | zero => intro idx acc h; omega
  | succ fuel ih =>
    intro idx acc h
    rw [Scanner.literalScanAux]
    cases hidx : Scanner.idxOf needle haystack idx with
    | none => rfl
    | some found =>
      by_cases hrem : remaining ≤ acc.length
      · simp [hrem]
      · simp only [if_neg hrem]
        refine ih _ _ ?_
        have hfacts := idxOf_some_facts needle haystack idx found hne hidx
        have hmax : 1 ≤ max 1 needle.length := le_max_left _ _
        omega

/-- Every per-line scan returns within its allotted fuel whenever the
regex engine respects the `exec` contract and, in literal mode, the
query is non-empty. -/
theorem scanLine_isSome (exec : List Char → Nat → Option (Nat × Nat))
    (options : SearchOptions)
    (hge : ∀ t i j len, exec t i = some (j, len) → i ≤ j)
    (hle : ∀ t i j len, exec t i = some (j, len) → j + len ≤ t.length)
    (hq : options.isRegex = true ∨ options.query ≠ "")
    (remaining lineNum : Nat) (text : List Char) (acc : List Range) :
    (Scanner.scanLine exec options remaining lineNum text acc).isSome = true := by
  unfold Scanner.scanLine
  by_cases hr : options.isRegex = true
  · rw [if_pos hr]
    exact regexScanAux_isSome exec hge hle options.matchWholeWord remaining lineNum text
      (text.length + 2) 0 acc (by omega)
  · rw [if_neg hr]
    have hq' : options.query ≠ "" := by
      rcases hq with hq | hq
      · exact absurd hq hr
      · exact hq
    have hne :
        (if options.isCaseSensitive then options.query.data
          else options.query.data.map Char.toLower) ≠ [] := by
      have hd := data_ne_nil_of_ne_empty hq'
      by_cases hcs : options.isCaseSensitive = true
      · simpa [hcs] using hd
      · simp only [hcs]
        simp only [if_false, Bool.false_eq_true]
        intro hmap
        exact hd (List.map_eq_nil_iff.mp hmap)
    have hlen :
        (if options.isCaseSensitive then text else text.map Char.toLower).length =
          text.length := by
      by_cases hcs : options.isCaseSensitive = true <;> simp [hcs]
    refine literalScanAux_isSome _ _ text options.matchWholeWord remaining lineNum hne
      (text.length + 2) 0 acc ?_
    rw [hlen]
    omega

/-- Fuel-free termination of the whole-document loop. -/
theorem scanDoc_isSome (exec : List Char → Nat → Option (Nat × Nat))
    (options : SearchOptions) (remaining : Nat) (document : TextDocument)
    (hge : ∀ t i j len, exec t i = some (j, len) → i ≤ j)
    (hle : ∀ t i j len, exec t i = some (j, len) → j + len ≤ t.length)
    (hq : options.isRegex = true ∨ options.query ≠ "") :
    ∀ count lineNum acc,
      (Scanner.scanDoc exec options remaining document lineNum count acc).isSome
        = true := by
  intro count
  induction count with
  | zero => intro lineNum acc; rfl
  | succ count ih =>
    intro lineNum acc
    rw [Scanner.scanDoc]
    by_cases hrem : remaining ≤ acc.length
    · simp [hrem]
    · rw [if_neg hrem]
      cases hscan : Scanner.scanLine exec options remaining lineNum
          (document.lineAt lineNum).data acc with
      | none =>
        have := scanLine_isSome exec options hge hle hq remaining lineNum
          (document.lineAt lineNum).data acc
        rw [hscan] at this
        simp at this
      | some acc' => exact ih _ _

/-- C8 amended.  For every document, options with a non-empty query (or
regex mode), and remaining-results budget, the per-document match scan
terminates: the fuelled embedding returns a result within the fuel bound
that the per-iteration advancement justifies.  In particular a
zero-length regex match never loops, because the loop's `lastIndex`
update (`nextLastIndex`) strictly advances the scan position whenever
the engine reports a match at or after the current position.  (With an
empty literal query the source loop can fail to advance; see the
counterexample.) -/
theorem C8_scan_terminates (exec : List Char → Nat → Option (Nat × Nat))
    (document : TextDocument) (options : SearchOptions) (remaining : Nat)
    (hge : ∀ t i j len, exec t i = some (j, len) → i ≤ j)
    (hle : ∀ t i j len, exec t i = some (j, len) → j + len ≤ t.length)
    (hq : options.isRegex = true ∨ options.query ≠ "") :
    (Scanner.findMatchesInDocument exec document options remaining).isSome = true ∧
      ∀ j len lastIndex, lastIndex ≤ j →
        lastIndex < Scanner.nextLastIndex j len := by
  constructor
  · exact scanDoc_isSome exec options remaining document hge hle hq _ _ _
  · intro j len lastIndex hij
    unfold Scanner.nextLastIndex
    by_cases hz : len = 0
    · rw [if_pos hz]; omega
    · rw [if_neg hz]; omega

/-- Witness for C8: the literal scan for query `a` over the one-line
document `ab` terminates. -/
theorem C8_scan_terminates_witness :
    (Scanner.findMatchesInDocument execNone dAB optsA 5).isSome = true :=
  (C8_scan_terminates execNone dAB optsA 5
    (fun _ _ _ _ h => by simp [execNone] at h)
    (fun _ _ _ _ h => by simp [execNone] at h)
    (Or.inr (by decide))).1

/- ### Claim C9 counterexample -/

/-- C9 counterexample.  A second search whose options differ from the
first only in `contextLines` does not clear the cache and does not
rescan: `isSameSearchOptions` ignores `contextLines`, so the second call
takes the incremental path and serves the cached excerpt `e1` even
though both re-scan oracles of `run2` report that a fresh scan finds
nothing; the surviving cache still carries the first search's options. -/
theorem C9_counterexample :
    Incremental.isSameSearchOptions opts1' cache1.lastSearchOptions = true ∧
      opts1' ≠ opts1 ∧
      (run2.1.all.map (fun p => (p.1, p.2.map (·.id)))) = [(u1, ["e1"])] ∧
      (run2.2.1.map (fun c => c.lastSearchOptions.contextLines)) = some 2 := by
  exact ⟨rfl, by decide, by decide, by decide⟩

/- ### Claim C8 counterexample -/

set_option maxRecDepth 8192 in
/-- C8 counterexample.   With an empty literal query and whole-word
matching on the line `ab`, the scan position stalls: `indexOf` clamps
the start index to the string length, so from `idx = 3` the loop finds
the empty needle at index 2, pushes nothing (the word-boundary test
fails), and returns to `idx = 3`.  The fuelled scan therefore exhausts
any fuel — one step from the stalled state consumes fuel without
exiting, and the whole document scan returns `none` (non-termination of
the source loop). -/
theorem C8_counterexample :
    Scanner.findMatchesInDocument execNone dAB optsEmptyWW 1 = none ∧
      Scanner.literalScanAux [] "ab".data "ab".data true 1 0 1 3 [] = none ∧
      Scanner.literalScanAux [] "ab".data "ab".data true 1 0 500 3 [] =
        Scanner.literalScanAux [] "ab".data "ab".data true 1 0 499 3 [] := by
  refine ⟨by decide, by decide, by decide⟩

/- ### ChangeTracker lemmas (claims C2 and C10) -/

/-- Every baseline recorded by the snapshot fold is the extracted
content of the corresponding document line. -/
theorem initSnapshot_fold_get (document : TextDocument)
    (l : JMap Nat ExcerptInfo) (m : JMap Nat String)
    (hm : ∀ k v, JMap.get m k = some v →
      v = ChangeTracker.extractContent (document.lineAt k)) :
    ∀ k v,
      JMap.get
          (l.foldl
            (fun m p =>
              if p.2.isMatch then
                JMap.set m p.1 (ChangeTracker.extractContent (document.lineAt p.1))
              else m)
            m) k = some v →
        v = ChangeTracker.extractContent (document.lineAt k) := by
  induction l generalizing m with
  | nil => exact hm
  | cons p rest ih =>
    intro k v
    simp only [List.foldl_cons]
    refine ih _ ?_ k v
    intro k' v' hget
    by_cases hmatch : p.2.isMatch
    · rw [if_pos hmatch, JMap.get_set] at hget
      by_cases hk : k' = p.1
      · rw [if_pos hk] at hget
        cases hget
        rw [hk]
      · rw [if_neg hk] at hget
        exact hm k' v' hget
    · rw [if_neg hmatch] at hget
      exact hm k' v' hget

/-- Characterization of the snapshot: every recorded baseline equals the
extracted content of its line in the document the snapshot was taken
from. -/
theorem initSnapshot_get (document : TextDocument) (mapping : MultiBufferMapping)
    (k : Nat) (v : String)
    (h : JMap.get (ChangeTracker.initSnapshot document mapping) k = some v) :
    v = ChangeTracker.extractContent (document.lineAt k) := by
  refine initSnapshot_fold_get document mapping.lineToExcerpt [] ?_ k v h
  intro k' v' hget
  simp [JMap.get] at hget

/-- If every baseline agrees with the current document, the
`computeChanges` fold never adds an entry. -/
theorem computeChanges_fold_nil (originalContent : JMap Nat String)
    (document : TextDocument)
    (h : ∀ k v, JMap.get originalContent k = some v →
      v = ChangeTracker.extractContent (document.lineAt k))
    (l : JMap Nat ExcerptInfo) :
    l.foldl (ChangeTracker.computeStep originalContent document) [] = [] := by
  induction l with
  | nil => rfl
  | cons p rest ih =>
    have hstep : ChangeTracker.computeStep originalContent document [] p = [] := by
      unfold ChangeTracker.computeStep
      by_cases hmatch : p.2.isMatch
      · rw [if_pos hmatch]
        cases hget : JMap.get originalContent p.1 with
        | none => rfl
        | some o =>
          have hco : ChangeTracker.extractContent (document.lineAt p.1) = o :=
            (h p.1 o hget).symm
          simp [hco]
      · rw [if_neg hmatch]
    simpa [List.foldl_cons, hstep] using ih

/- ### Claim C2 -/

/-- Immediately recomputing changes against the very document the
snapshot was taken from yields no changes at all, for any mapping. -/
theorem computeChanges_after_initSnapshot (document : TextDocument)
    (mapping : MultiBufferMapping) :
    ChangeTracker.computeChanges (ChangeTracker.initSnapshot document mapping)
      document mapping = [] :=
  computeChanges_fold_nil _ document (initSnapshot_get document mapping)
    mapping.lineToExcerpt

/-- C2.  Round-trip: formatting any per-file excerpt map with no
replacement options, snapshotting the formatted content with
`ChangeTracker.initialize`, and immediately running `computeChanges` on
the unmodified content and the same mapping yields an empty change set
(a map with zero files). -/
theorem C2_round_trip_empty
    (regexReplace : String → Bool → String → String → String)
    (excerptsByFile : List (Uri × List ExcerptInfo)) (options : SearchOptions) :
    ChangeTracker.computeChanges
        (ChangeTracker.initSnapshot
          (TextDocument.ofContent
            (ResultFormatter.formatSearchResults regexReplace excerptsByFile options none).1)
          (ResultFormatter.formatSearchResults regexReplace excerptsByFile options none).2)
        (TextDocument.ofContent
          (ResultFormatter.formatSearchResults regexReplace excerptsByFile options none).1)
        (ResultFormatter.formatSearchResults regexReplace excerptsByFile options none).2
      = [] :=
  computeChanges_after_initSnapshot _ _

/- ### Claim C10 -/

/-- Fold invariant for `computeChanges`: every change in the accumulated
per-file map originates from a mapped match line with a recorded,
differing baseline. -/
theorem computeChanges_fold_provenance (orig : JMap Nat String) (doc : TextDocument)
    (big : JMap Nat ExcerptInfo) :
    ∀ l : JMap Nat ExcerptInfo, (∀ p ∈ l, p ∈ big) →
    ∀ acc : JMap String FileChange,
      (∀ key fc, (key, fc) ∈ acc → ∀ ch ∈ fc.changes,
        ∃ line excerpt, (line, excerpt) ∈ big ∧ excerpt.isMatch = true ∧
          JMap.get orig line = some ch.originalText ∧
          ChangeTracker.extractContent (doc.lineAt line) ≠ ch.originalText ∧
          ch.newText = ChangeTracker.extractContent (doc.lineAt line) ∧
          key = excerpt.fileUri.toString) →
      ∀ key fc, (key, fc) ∈ l.foldl (ChangeTracker.computeStep orig doc) acc →
        ∀ ch ∈ fc.changes,
          ∃ line excerpt, (line, excerpt) ∈ big ∧ excerpt.isMatch = true ∧
            JMap.get orig line = some ch.originalText ∧
            ChangeTracker.extractContent (doc.lineAt line) ≠ ch.originalText ∧
            ch.newText = ChangeTracker.extractContent (doc.lineAt line) ∧
            key = excerpt.fileUri.toString := by
  intro l
  induction l with
  | nil =>
    intro _ acc hacc key fc hfc
    exact hacc key fc hfc
  | cons p rest ih =>
    intro hsub acc hacc key fc hfc
    rw [List.foldl_cons] at hfc
    refine ih (fun q hq => hsub q (List.mem_cons_of_mem _ hq)) _ ?_ key fc hfc
    intro key' fc' hmem ch hch
    have hpbig : (p.1, p.2) ∈ big := hsub p (List.mem_cons_self _ _)
    by_cases hmatch : p.2.isMatch
    · unfold ChangeTracker.computeStep at hmem
      rw [if_pos hmatch] at hmem
      cases hget : JMap.get orig p.1 with
      | none =>
        rw [hget] at hmem
        exact hacc key' fc' hmem ch hch
      | some o =>
        rw [hget] at hmem
        dsimp only at hmem
        by_cases heq : ChangeTracker.extractContent (doc.lineAt p.1) = o
        · rw [if_pos heq] at hmem
          exact hacc key' fc' hmem ch hch
        · rw [if_neg heq] at hmem
          rcases JMap.mem_set _ _ _ _ hmem with hnew | hold
          · have hkey : key' = p.2.fileUri.toString := congrArg Prod.fst hnew
            have hfc' := congrArg Prod.snd hnew
            simp only [] at hfc'
            subst hfc'
            rcases List.mem_append.mp hch with hin | hin
            · cases hgacc : JMap.get acc (p.2.fileUri.toString) with
              | none =>
                rw [hgacc] at hin
                simp at hin
              | some fcOld =>
                rw [hgacc] at hin
                have : (p.2.fileUri.toString, fcOld) ∈ acc := JMap.get_mem _ _ _ hgacc
                rcases hacc _ _ this ch hin with
                  ⟨line, excerpt, h1, h2, h3, h4, h5, h6⟩
                exact ⟨line, excerpt, h1, h2, h3, h4, h5, hkey.trans h6⟩
            · simp only [List.mem_singleton] at hin
              subst hin
              exact ⟨p.1, p.2, hpbig, hmatch, hget, heq, rfl, hkey⟩
          · exact hacc key' fc' hold ch hch
    · unfold ChangeTracker.computeStep at hmem
      rw [if_neg hmatch] at hmem
      exact hacc key' fc' hmem ch hch

/-- C10.  Every edit emitted by `computeChanges` comes from an aggregate
line that the mapping sends to a match excerpt, that has a baseline
recorded in the snapshot, and whose currently extracted content differs
from that baseline; the edit's `originalText` is exactly the recorded
baseline, its `newText` is the current extracted content, and it is
filed under the owning excerpt's file key.  Consequently a mapped line
with no recorded baseline, or one whose content equals its baseline,
never produces an edit. -/
theorem C10_changes_provenance (orig : JMap Nat String) (doc : TextDocument)
    (mapping : MultiBufferMapping) (key : String) (fc : FileChange) (ch : TextChange)
    (hfc : (key, fc) ∈ ChangeTracker.computeChanges orig doc mapping)
    (hch : ch ∈ fc.changes) :
    ∃ line excerpt, (line, excerpt) ∈ mapping.lineToExcerpt ∧
      excerpt.isMatch = true ∧
      JMap.get orig line = some ch.originalText ∧
      ChangeTracker.extractContent (doc.lineAt line) ≠ ch.originalText ∧
      ch.newText = ChangeTracker.extractContent (doc.lineAt line) ∧
      key = excerpt.fileUri.toString := by
  refine computeChanges_fold_provenance orig doc mapping.lineToExcerpt
    mapping.lineToExcerpt (fun _ h => h) [] ?_ key fc hfc ch hch
  intro key' fc' hmem
  simp at hmem

/-- Witness for C10: the concrete edited aggregate `edited1` produces
the single pending edit `(range 3:0-3:2, "X2", "L2")`, and the theorem
recovers its provenance. -/
theorem C10_witness :
    ∃ line excerpt, (line, excerpt) ∈ fmt1.2.lineToExcerpt ∧
      excerpt.isMatch = true ∧
      JMap.get snap1 line = some "L2" ∧
      ChangeTracker.extractContent (edited1.lineAt line) ≠ "L2" ∧
      ("X2" : String) = ChangeTracker.extractContent (edited1.lineAt line) ∧
      ("file:///test/file.ts" : String) = excerpt.fileUri.toString :=
  C10_changes_provenance snap1 edited1 fmt1.2 "file:///test/file.ts"
    ⟨u1, [⟨⟨⟨3, 0⟩, ⟨3, 2⟩⟩, "X2", "L2"⟩]⟩ ⟨⟨⟨3, 0⟩, ⟨3, 2⟩⟩, "X2", "L2"⟩
    (by decide) (by decide)

/- ### Claim C9 amended -/

/-- C9 amended.  `searchWorkspaceIncremental` clears the entire cache
and performs a full rescan exactly when the new options differ from the
cached search's options in `query`, `isRegex`, `isCaseSensitive`,
`matchWholeWord`, `includePattern` or `excludePattern`; options that
differ only in `contextLines`, `contextBefore`, `contextAfter` or
`maxResults` count as the same search, so the call takes the incremental
path and may serve excerpts from the previous cache. -/
theorem C9_cache_invalidation :
    (∀ (cache : Incremental.SearchCache) (pending : List String)
        (options : SearchOptions) (scan : List (Uri × List ExcerptInfo))
        (fileScan : String → Incremental.FileScanOutcome) (now : Nat),
      Incremental.isSameSearchOptions options cache.lastSearchOptions = false →
        Incremental.searchWorkspaceIncremental (some cache) pending options scan
            fileScan now =
          (⟨scan, [], [], [], scan⟩,
           some (Incremental.initCache options scan now), [])) ∧
      (∀ (cache : Incremental.SearchCache) (pending : List String)
          (options : SearchOptions) (scan : List (Uri × List ExcerptInfo))
          (fileScan : String → Incremental.FileScanOutcome) (now : Nat),
        Incremental.isSameSearchOptions options cache.lastSearchOptions = true →
          Incremental.searchWorkspaceIncremental (some cache) pending options scan
              fileScan now =
            ((Incremental.performIncrementalUpdate cache pending fileScan now).1,
             some (Incremental.performIncrementalUpdate cache pending fileScan now).2,
             [])) ∧
      (∀ a b : SearchOptions, a.query = b.query → a.isRegex = b.isRegex →
        a.isCaseSensitive = b.isCaseSensitive → a.matchWholeWord = b.matchWholeWord →
        a.includePattern = b.includePattern → a.excludePattern = b.excludePattern →
        Incremental.isSameSearchOptions a b = true) := by
  refine ⟨?_, ?_, ?_⟩
  · intro cache pending options scan fileScan now h
    simp [Incremental.searchWorkspaceIncremental, h]
  · intro cache pending options scan fileScan now h
    simp [Incremental.searchWorkspaceIncremental, h]
  · intro a b h1 h2 h3 h4 h5 h6
    simp [Incremental.isSameSearchOptions, h1, h2, h3, h4, h5, h6]

/-- Witness for C9: changing the query from `L` to `M` discards the
cache built by the first search and performs a full rescan. -/
theorem C9_cache_invalidation_witness :
    Incremental.searchWorkspaceIncremental (some cache1) []
        { opts1 with query := "M" } [] (fun _ => .ok []) 1 =
      (⟨[], [], [], [], []⟩,
       some (Incremental.initCache { opts1 with query := "M" } [] 1), []) :=
  C9_cache_invalidation.1 cache1 [] { opts1 with query := "M" } []
    (fun _ => .ok []) 1 (by decide)

end OmniBuffer
